import Mathlib

/-!
Verification of the Azure Blob backend driver (`core/backend_azblob.go`) of
tigrisfs against its natural-language specification.

Modelling conventions (shallow embedding of the Go source):

* Go strings and byte slices are modelled as `List Nat` (byte values); Go
  compares strings bytewise, so lexicographic order on byte lists is the
  faithful order.  `S` injects ASCII string literals.
* Go maps (`map[string]string`, `map[string]*string`) are modelled as
  association lists whose insert operation overwrites the previous binding
  of the key, mirroring Go map assignment.  Go map iteration order is
  unspecified; folds in this file fix one order, and theorems that would be
  sensitive to the order carry hypotheses ruling the sensitivity out.
* The Azure service is modelled by an explicit store (key ↦ stored blob)
  for the point operations, and by taking the raw listing response as an
  input for `ListBlobs` (the client cannot observe more than the response).
* Errors: `syscall` errnos and `azblob.StorageError` values travel through
  the code as Go `error` values; `GoErr` is their sum.  Fallible operations
  return `Except GoErr α`.
-/

/-- Byte strings: Go strings / byte slices as lists of byte values. -/
abbrev Str := List Nat

/-- Inject an ASCII Lean string literal as a byte string. -/
def S (s : String) : Str := s.data.map Char.toNat

/-- POSIX errnos used by the driver (the `syscall.E*` constants it returns). -/
inductive Errno where
  | ENOENT | EACCES | EEXIST | EAGAIN | ENODEV | EINVAL | EBUSY | ENOTSUP | ENOSYS
deriving DecidableEq, Repr

/-- A Go `error` value as seen by the driver: a `syscall` errno, an
`azblob.StorageError` (carrying its service code string and the HTTP status
of its response), or some other opaque error. -/
inductive GoErr where
  | errno (e : Errno)
  | storage (serviceCode : String) (httpStatus : Nat)
  | other (msg : String)
deriving DecidableEq, Repr

/-- Modelled from the spec: `mapHttpError` is defined outside the Azure
driver file (it is shared backend code not present under `src/`).  The
spec's error taxonomy (§7) maps auth failures to Permission, missing keys
to NotFound, unsupported operations to NotSupported, temporary conditions
to Busy/retryable; statuses outside the taxonomy are left unmapped
(`none`).  Only the `default` branch of `mapAZBError` consults it, and no
theorem below depends on this modelled definition. -/
def mapHttpError (status : Nat) : Option Errno :=
  if status = 400 then some .EINVAL
  else if status = 401 then some .EACCES
  else if status = 403 then some .EACCES
  else if status = 404 then some .ENOENT
  else if status = 405 then some .ENOTSUP
  else if status = 429 then some .EAGAIN
  else if status = 500 then some .EAGAIN
  else if status = 503 then some .EAGAIN
  else none

/-- The `switch stgErr.ServiceCode()` of `mapAZBError` (lines 354-406) for a
non-nil error: a `StorageError` is mapped by its service code, with the
default branch falling back to the HTTP status (and to the raw storage
error when even that is unmapped); a non-storage error is returned
unchanged. -/
def mapAZBErrCore : GoErr → GoErr
  | .storage code status =>
      if code = "BlobAlreadyExists" then .errno .EACCES
      else if code = "BlobNotFound" then .errno .ENOENT
      else if code = "ContainerAlreadyExists" then .errno .EEXIST
      else if code = "ContainerBeingDeleted" then .errno .EAGAIN
      else if code = "ContainerDisabled" then .errno .EACCES
      else if code = "ContainerNotFound" then .errno .ENODEV
      else if code = "CopyAcrossAccountsNotSupported" then .errno .EINVAL
      else if code = "SourceConditionNotMet" then .errno .EINVAL
      else if code = "SystemInUse" then .errno .EAGAIN
      else if code = "TargetConditionNotMet" then .errno .EINVAL
      else if code = "BlobBeingRehydrated" then .errno .EAGAIN
      else if code = "BlobArchived" then .errno .EINVAL
      else if code = "AccountBeingCreated" then .errno .EAGAIN
      else if code = "AuthenticationFailed" then .errno .EACCES
      else if code = "ConditionNotMet" then .errno .EBUSY
      else if code = "InternalError" then .errno .EAGAIN
      else if code = "InvalidAuthenticationInfo" then .errno .EACCES
      else if code = "OperationTimedOut" then .errno .EAGAIN
      else if code = "ResourceNotFound" then .errno .ENOENT
      else if code = "ServerBusy" then .errno .EAGAIN
      else if code = "AuthorizationFailure" then .errno .EACCES
      else match mapHttpError status with
           | some e => .errno e
           | none => .storage code status
  | e => e

/-- `mapAZBError` (lines 349-410): `nil` maps to `nil`, anything else goes
through the service-code switch. -/
def mapAZBError : Option GoErr → Option GoErr
  | none => none
  | some e => some (mapAZBErrCore e)

/-- `RenameBlob` (lines 692-694): unconditionally `return nil, syscall.ENOTSUP`,
touching no state.  The store is threaded to make the absence of a state
change expressible. -/
def renameBlob {σ : Type} (st : σ) (_src _dst : Str) : σ × Except GoErr Unit :=
  (st, .error (.errno .ENOTSUP))

/-- C4: mapAZBError maps nil to nil, blob-not-found and resource-not-found
to ENOENT, the three authentication/authorization failure codes to EACCES,
and the transient conditions (server busy, operation timed out, internal
error, container being deleted, system in use) to the retryable EAGAIN,
for any HTTP status carried by the storage error. -/
theorem mapAZBError_taxonomy :
    mapAZBError none = none ∧
    (∀ status : Nat,
      mapAZBError (some (.storage "BlobNotFound" status)) = some (.errno .ENOENT) ∧
      mapAZBError (some (.storage "ResourceNotFound" status)) = some (.errno .ENOENT) ∧
      mapAZBError (some (.storage "AuthenticationFailed" status)) = some (.errno .EACCES) ∧
      mapAZBError (some (.storage "InvalidAuthenticationInfo" status)) = some (.errno .EACCES) ∧
      mapAZBError (some (.storage "AuthorizationFailure" status)) = some (.errno .EACCES) ∧
      mapAZBError (some (.storage "ServerBusy" status)) = some (.errno .EAGAIN) ∧
      mapAZBError (some (.storage "OperationTimedOut" status)) = some (.errno .EAGAIN) ∧
      mapAZBError (some (.storage "InternalError" status)) = some (.errno .EAGAIN) ∧
      mapAZBError (some (.storage "ContainerBeingDeleted" status)) = some (.errno .EAGAIN) ∧
      mapAZBError (some (.storage "SystemInUse" status)) = some (.errno .EAGAIN)) := by
  refine ⟨rfl, fun status => ?_⟩
  refine ⟨rfl, rfl, rfl, rfl, rfl, rfl, rfl, rfl, rfl, rfl⟩

/-- C8: RenameBlob returns NotSupported (ENOTSUP) on every input and leaves
the backend state unchanged (it performs no backend request). -/
theorem renameBlob_notSupported {σ : Type} (st : σ) (src dst : Str) :
    renameBlob st src dst = (st, .error (.errno .ENOTSUP)) := rfl

/-! ## Metadata maps and the blob store -/

/-- Go's `strings.ToLower` restricted to single bytes: the driver's metadata
keys are ASCII, where lowering maps `A`-`Z` (65-90) to `a`-`z` and leaves
every other byte unchanged. -/
def asciiToLower (b : Nat) : Nat :=
  if 65 ≤ b ∧ b ≤ 90 then b + 32 else b

/-- Go's `strings.ToLower` on a byte string (ASCII). -/
def strToLower (s : Str) : Str := s.map asciiToLower

/-- Go map read `m[k]` returning the binding if present. -/
def alookup {α : Type} (m : List (Str × α)) (k : Str) : Option α :=
  match m with
  | [] => none
  | p :: rest => if p.1 = k then some p.2 else alookup rest k

/-- Go `delete(m, k)`. -/
def aerase {α : Type} (m : List (Str × α)) (k : Str) : List (Str × α) :=
  m.filter (fun p => decide (p.1 ≠ k))

/-- Go map assignment `m[k] = v`: overwrites any previous binding of `k`. -/
def ainsert {α : Type} (m : List (Str × α)) (k : Str) (v : α) : List (Str × α) :=
  m.filter (fun p => decide (p.1 ≠ k)) ++ [(k, v)]

/-- Metadata: a Go string-keyed map, as an association list. -/
abbrev Meta := List (Str × Str)

/-- `nilMetadata` (lines 412-419): rebuild the metadata map with every key
lower-cased (the fold fixes one iteration order for the Go map). -/
def nilMetadata (m : Meta) : Meta :=
  m.foldl (fun acc p => ainsert acc (strToLower p.1) p.2) []

/-- `AzureDirBlobMetadataKey = "hdi_isfolder"` (line 44). -/
def azureDirBlobMetadataKey : Str := S "hdi_isfolder"

/-- A blob at rest on the Azure service: the metadata it was uploaded with,
its content type, body and server-assigned etag. -/
structure StoredBlob where
  metadata : Meta
  contentType : Str
  body : Str
  etag : Str
deriving DecidableEq, Repr

/-- The service state: container contents, key ↦ blob. -/
abbrev Store := List (Str × StoredBlob)

/-- Service-side key lookup. -/
def storeLookup (st : Store) (k : Str) : Option StoredBlob := alookup st k

/-- Service-side upsert of a key. -/
def storeInsert (st : Store) (k : Str) (b : StoredBlob) : Store := ainsert st k b

/-- Go `strings.HasSuffix(k, "/")` on a byte string (47 is `/`). -/
def hasSuffixSlash (k : Str) : Bool :=
  decide (k.reverse.head? = some 47)

/-- `HeadBlobOutput` (its fields used by this driver). -/
structure HeadBlobOutput where
  key : Str
  etag : Str
  size : Nat
  metadata : Meta
  contentType : Str
  isDirBlob : Bool
deriving DecidableEq, Repr

/-- The non-recursive branch of `HeadBlob` (lines 438-463) at a key that
does not end in `/`: `GetProperties` on the key (a missing key surfaces as
a `BlobNotFound` storage error, mapped by `mapAZBError`), the directory
bit is taken from the presence of the `hdi_isfolder` metadata key, and
that key is deleted from the metadata before it is returned. -/
def headBlobCore (st : Store) (key : Str) : Except GoErr HeadBlobOutput :=
  match storeLookup st key with
  | none => .error (mapAZBErrCore (.storage "BlobNotFound" 404))
  | some b =>
      let metadata := b.metadata
      let isDir := hasSuffixSlash key
      let isDir := if ¬isDir then (alookup metadata azureDirBlobMetadataKey).isSome else isDir
      .ok { key := key
            etag := b.etag
            size := b.body.length
            metadata := aerase metadata azureDirBlobMetadataKey
            contentType := b.contentType
            isDirBlob := isDir }

/-- `HeadBlob` (lines 421-464) on the reversed key: a leading 47 of the
reversed key is a trailing `/` of the key; the driver then heads the key
with that byte stripped and demands `IsDirBlob`, failing with `ENOENT`
otherwise (lines 427-436). -/
def headBlobAux (st : Store) : List Nat → Except GoErr HeadBlobOutput
  | 47 :: rkey =>
      match headBlobAux st rkey with
      | .ok dirBlob => if ¬dirBlob.isDirBlob then .error (.errno .ENOENT) else .ok dirBlob
      | .error e => .error e
  | rkey => headBlobCore st rkey.reverse

/-- `HeadBlob` (lines 421-464). -/
def headBlob (st : Store) (key : Str) : Except GoErr HeadBlobOutput :=
  headBlobAux st key.reverse

/-- `PutBlobInput` (its fields used by this driver). -/
structure PutBlobInput where
  key : Str
  metadata : Meta
  dirBlob : Bool
  contentType : Str
  body : Str
deriving DecidableEq, Repr

/-- `PutBlobOutput`. -/
structure PutBlobOutput where
  etag : Str
deriving DecidableEq, Repr

/-- The upload branch of `PutBlob` (lines 794-814): store the blob under
the key with `nilMetadata(param.Metadata)`; `newEtag` stands for the
server-assigned etag of the new blob version. -/
def putBlobUpload (st : Store) (key : Str) (meta : Meta) (ct body newEtag : Str) :
    Store × Except GoErr PutBlobOutput :=
  (storeInsert st key { metadata := nilMetadata meta, contentType := ct, body := body, etag := newEtag },
   .ok { etag := newEtag })

/-- `PutBlob` (lines 775-815) on the reversed key: with `DirBlob` set and a
trailing `/` (a leading 47 of the reversed key), strip the slash, set
`hdi_isfolder = "true"` in the metadata and recurse (lines 781-792);
otherwise upload. -/
def putBlobAux (st : Store) (dirBlob : Bool) (meta : Meta) (ct body newEtag : Str) :
    List Nat → Store × Except GoErr PutBlobOutput
  | 47 :: rkey =>
      if dirBlob then
        putBlobAux st dirBlob (ainsert meta azureDirBlobMetadataKey (S "true")) ct body newEtag rkey
      else
        putBlobUpload st (47 :: rkey).reverse meta ct body newEtag
  | rkey => putBlobUpload st rkey.reverse meta ct body newEtag

/-- `PutBlob` (lines 775-815). -/
def putBlob (st : Store) (p : PutBlobInput) (newEtag : Str) : Store × Except GoErr PutBlobOutput :=
  putBlobAux st p.dirBlob p.metadata p.contentType p.body newEtag p.key.reverse

/-- `GetBlobInput` (its fields used by this driver). -/
structure GetBlobInput where
  key : Str
  start : Nat
  count : Nat
  ifMatch : Option Str
deriving DecidableEq, Repr

/-- `GetBlobOutput`: head fields plus the body stream. -/
structure GetBlobOutput where
  head : HeadBlobOutput
  body : Str
deriving DecidableEq, Repr

/-- `GetBlob` (lines 734-773): ranged `Download` with optional `If-Match`
(mismatch surfaces as a 412 `ConditionNotMet` storage error, a missing key
as `BlobNotFound`, both mapped by `mapAZBError`); the `hdi_isfolder` key is
deleted from the returned metadata. -/
def getBlob (st : Store) (p : GetBlobInput) : Except GoErr GetBlobOutput :=
  match storeLookup st p.key with
  | none => .error (mapAZBErrCore (.storage "BlobNotFound" 404))
  | some b =>
      match p.ifMatch with
      | some t =>
          if t ≠ b.etag then .error (mapAZBErrCore (.storage "ConditionNotMet" 412))
          else
            .ok { head := { key := p.key, etag := b.etag, size := b.body.length
                            metadata := aerase b.metadata azureDirBlobMetadataKey
                            contentType := b.contentType, isDirBlob := false }
                  body := (b.body.drop p.start).take p.count }
      | none =>
          .ok { head := { key := p.key, etag := b.etag, size := b.body.length
                          metadata := aerase b.metadata azureDirBlobMetadataKey
                          contentType := b.contentType, isDirBlob := false }
                body := (b.body.drop p.start).take p.count }

/-! ## Association-map lemmas -/

theorem alookup_ainsert_self {α : Type} (m : List (Str × α)) (k : Str) (v : α) :
    alookup (ainsert m k v) k = some v := by
  induction m with
  | nil => simp [ainsert, alookup]
  | cons p rest ih =>
      by_cases h : p.1 = k
      · simpa [ainsert, h] using ih
      · simpa [ainsert, alookup, h] using ih

theorem alookup_aerase_self {α : Type} (m : List (Str × α)) (k : Str) :
    alookup (aerase m k) k = none := by
  induction m with
  | nil => rfl
  | cons p rest ih =>
      by_cases h : p.1 = k
      · simpa [aerase, h] using ih
      · simpa [aerase, alookup, h] using ih

theorem headBlobAux_notSlash (st : Store) (rkey : List Nat)
    (h : rkey.head? ≠ some 47) :
    headBlobAux st rkey = headBlobCore st rkey.reverse := by
  rw [headBlobAux.eq_def]
  split
  · simp at h
  · rfl

theorem putBlobAux_notSlash (st : Store) (dirBlob : Bool) (meta : Meta)
    (ct body newEtag : Str) (rkey : List Nat) (h : rkey.head? ≠ some 47) :
    putBlobAux st dirBlob meta ct body newEtag rkey =
      putBlobUpload st rkey.reverse meta ct body newEtag := by
  rw [putBlobAux.eq_def]
  split
  · simp at h
  · rfl

theorem alookup_nilMetadata_last (m : Meta) (k v : Str) (hk : strToLower k = k) :
    alookup (nilMetadata (ainsert m k v)) k = some v := by
  have hfold : ∀ (l : List (Str × Str)) (acc : Meta),
      List.foldl (fun acc p => ainsert acc (strToLower p.1) p.2) acc (l ++ [(k, v)]) =
        ainsert (List.foldl (fun acc p => ainsert acc (strToLower p.1) p.2) acc l) k v := by
    intro l acc
    rw [List.foldl_append]
    simp [hk]
  have hsplit : ainsert m k v = m.filter (fun p => decide (p.1 ≠ k)) ++ [(k, v)] := rfl
  unfold nilMetadata
  rw [hsplit, hfold]
  exact alookup_ainsert_self _ _ _

/-- HeadBlob at a key with exactly one trailing slash reduces to the
slash-stripped head plus the IsDirBlob check (lines 427-436). -/
theorem headBlob_slash (st : Store) (k : Str) (hk : k.reverse.head? ≠ some 47) :
    headBlob st (k ++ [47]) =
      match headBlobCore st k with
      | .ok dirBlob => if ¬dirBlob.isDirBlob then .error (.errno .ENOENT) else .ok dirBlob
      | .error e => .error e := by
  unfold headBlob
  have hrev : (k ++ [47]).reverse = 47 :: k.reverse := by simp
  rw [hrev]
  show (match headBlobAux st k.reverse with
        | Except.ok dirBlob =>
            if ¬dirBlob.isDirBlob then Except.error (GoErr.errno Errno.ENOENT)
            else Except.ok dirBlob
        | Except.error e => Except.error e) = _
  rw [headBlobAux_notSlash _ _ hk, List.reverse_reverse]

/-- C2: PutBlob with DirBlob set on a key ending in `/` stores the object
under the key with the trailing slash removed, with `hdi_isfolder` set to
"true"; HeadBlob of the slash-suffixed key then succeeds with IsDirBlob
true; and HeadBlob of a slash-suffixed key whose underlying blob lacks the
directory-marker flag returns NotFound (ENOENT). -/
theorem putBlob_dirBlob_roundtrip (st : Store) (k : Str) (meta : Meta)
    (ct body newEtag : Str) (hk : hasSuffixSlash k = false) :
    (∃ b, storeLookup (putBlob st ⟨k ++ [47], meta, true, ct, body⟩ newEtag).1 k = some b ∧
        alookup b.metadata azureDirBlobMetadataKey = some (S "true")) ∧
    (∃ out, headBlob (putBlob st ⟨k ++ [47], meta, true, ct, body⟩ newEtag).1 (k ++ [47]) =
        .ok out ∧ out.isDirBlob = true) ∧
    (∀ (st' : Store) (b : StoredBlob), storeLookup st' k = some b →
        alookup b.metadata azureDirBlobMetadataKey = none →
        headBlob st' (k ++ [47]) = .error (.errno .ENOENT)) := by
  have hhead : k.reverse.head? ≠ some 47 := by
    simp [hasSuffixSlash] at hk
    simpa [List.head?_reverse] using hk
  have hrev : (k ++ [47]).reverse = 47 :: k.reverse := by simp
  have h1 : putBlob st ⟨k ++ [47], meta, true, ct, body⟩ newEtag
      = putBlobAux st true (ainsert meta azureDirBlobMetadataKey (S "true")) ct body newEtag
          k.reverse := by
    unfold putBlob
    simp only [hrev]
    rfl
  have h2 : putBlob st ⟨k ++ [47], meta, true, ct, body⟩ newEtag
      = putBlobUpload st k (ainsert meta azureDirBlobMetadataKey (S "true")) ct body newEtag := by
    rw [h1, putBlobAux_notSlash _ _ _ _ _ _ _ hhead, List.reverse_reverse]
  have hlower : strToLower azureDirBlobMetadataKey = azureDirBlobMetadataKey := by decide
  have hmarker :
      alookup (nilMetadata (ainsert meta azureDirBlobMetadataKey (S "true")))
        azureDirBlobMetadataKey = some (S "true") :=
    alookup_nilMetadata_last _ _ _ hlower
  have hstore : (putBlob st ⟨k ++ [47], meta, true, ct, body⟩ newEtag).1
      = storeInsert st k
          { metadata := nilMetadata (ainsert meta azureDirBlobMetadataKey (S "true")),
            contentType := ct, body := body, etag := newEtag } := by
    rw [h2]; rfl
  have hlook : storeLookup (putBlob st ⟨k ++ [47], meta, true, ct, body⟩ newEtag).1 k
      = some { metadata := nilMetadata (ainsert meta azureDirBlobMetadataKey (S "true")),
               contentType := ct, body := body, etag := newEtag } := by
    rw [hstore]; exact alookup_ainsert_self _ _ _
  refine ⟨?_, ?_, ?_⟩
  · exact ⟨_, hlook, hmarker⟩
  · have hcore : headBlobCore (putBlob st ⟨k ++ [47], meta, true, ct, body⟩ newEtag).1 k
        = .ok { key := k, etag := newEtag, size := body.length,
                metadata := aerase (nilMetadata (ainsert meta azureDirBlobMetadataKey (S "true")))
                  azureDirBlobMetadataKey,
                contentType := ct, isDirBlob := true } := by
      unfold headBlobCore
      rw [hlook]
      simp [hk, hmarker]
    refine ⟨{ key := k, etag := newEtag, size := body.length,
              metadata := aerase (nilMetadata (ainsert meta azureDirBlobMetadataKey (S "true")))
                azureDirBlobMetadataKey,
              contentType := ct, isDirBlob := true }, ?_, rfl⟩
    rw [headBlob_slash _ _ hhead, hcore]
    rfl
  · intro st' b hb hnone
    have hcore : headBlobCore st' k
        = .ok { key := k, etag := b.etag, size := b.body.length,
                metadata := aerase b.metadata azureDirBlobMetadataKey,
                contentType := b.contentType, isDirBlob := false } := by
      unfold headBlobCore
      rw [hb]
      simp [hk, hnone]
    rw [headBlob_slash _ _ hhead, hcore]
    rfl

/-- Witness for C2 at the concrete store `[]`, key `"a/"`, empty metadata. -/
theorem putBlob_dirBlob_roundtrip_witness :
    (∃ b, storeLookup (putBlob [] ⟨S "a" ++ [47], [], true, [], []⟩ (S "e")).1 (S "a") = some b ∧
        alookup b.metadata azureDirBlobMetadataKey = some (S "true")) ∧
    (∃ out, headBlob (putBlob [] ⟨S "a" ++ [47], [], true, [], []⟩ (S "e")).1 (S "a" ++ [47]) =
        .ok out ∧ out.isDirBlob = true) ∧
    (∀ (st' : Store) (b : StoredBlob), storeLookup st' (S "a") = some b →
        alookup b.metadata azureDirBlobMetadataKey = none →
        headBlob st' (S "a" ++ [47]) = .error (.errno .ENOENT)) :=
  putBlob_dirBlob_roundtrip [] (S "a") [] [] [] (S "e") (by decide)

/-! ## ListBlobs -/

/-- `BlobItemOutput` (its fields used by this driver). -/
structure BlobItemOutput where
  key : Str
  etag : Str
  size : Nat
  metadata : Meta
deriving DecidableEq, Repr

/-- One entry of `resp.Segment.BlobItems` of a listing response. -/
structure AzRawBlobItem where
  name : Str
  metadata : Meta
  etag : Str
  size : Nat
deriving DecidableEq, Repr

/-- A raw Azure listing response: the segment's blob prefixes (hierarchy
listing only), blob items, and `NextMarker.Val`. -/
structure AzListResponse where
  blobPfxs : List Str
  blobItems : List AzRawBlobItem
  nextMarker : Option Str
deriving DecidableEq, Repr

/-- `ListBlobsInput`; `pfx` is `NilStr(param.Prefix)`. -/
structure ListBlobsInput where
  pfx : Str
  delimiter : Option Str
  maxKeys : Option Nat
  continuationToken : Option Str
  startAfter : Option Str
deriving DecidableEq, Repr

/-- `ListBlobsOutput`; prefixes are modelled by their key strings. -/
structure ListBlobsOutput where
  pfxs : List Str
  items : List BlobItemOutput
  nextContinuationToken : Option Str
  isTruncated : Bool
deriving DecidableEq, Repr

/-- `AzuriteEndpoint` (line 43). -/
def azuriteEndpoint : String := "http://127.0.0.1:8080/devstoreaccount1/"

/-- Go `<` on strings: bytewise lexicographic comparison. -/
def strLess : Str → Str → Bool
  | [], [] => false
  | [], _ :: _ => true
  | _ :: _, [] => false
  | a :: as, b :: bs => if a < b then true else if b < a then false else strLess as bs

/-- Go `sort.IsSorted`: no element compares less than its predecessor. -/
def isSortedBy {α : Type} (less : α → α → Bool) : List α → Bool
  | [] => true
  | [_] => true
  | a :: b :: rest => !(less b a) && isSortedBy less (b :: rest)

/-- Ordered insert used to model `sort.Sort`. -/
def insertBy {α : Type} (less : α → α → Bool) (a : α) : List α → List α
  | [] => [a]
  | b :: rest => if less a b then a :: b :: rest else b :: insertBy less a rest

/-- Go `sort.Sort` modelled as insertion sort over the `Less` relation (the
sorting algorithm Go uses is unspecified beyond producing an ordering). -/
def sortBy {α : Type} (less : α → α → Bool) : List α → List α
  | [] => []
  | a :: rest => insertBy less a (sortBy less rest)

/-- Modelled from the spec: `sortBlobItemOutput` (a `sort.Interface`
wrapper defined in shared backend code not present under `src/`) orders
blob items by ascending key — §6: listings "may be unsorted for some
backends; core re-sorts", and the source comments at lines 617-619 say
"items are supposed to be alphabetical". -/
def itemLess (a b : BlobItemOutput) : Bool := strLess a.key b.key

/-- Modelled from the spec: `sortBlobPrefixOutput`, likewise, orders blob
prefixes by ascending name. -/
def pfxLess (a b : Str) : Bool := strLess a b

/-- Go `sort.Search` loop: binary search for the least index in `[i, j)`
at which `f` holds (under monotone `f`). -/
def goSearchLoop (f : Nat → Bool) (i j : Nat) : Nat :=
  if h : i < j then
    let m := (i + j) / 2
    if f m then goSearchLoop f i m else goSearchLoop f (m + 1) j
  else i
termination_by j - i
decreasing_by
  · omega
  · omega

/-- Go `sort.Search(n, f)`. -/
def goSearch (n : Nat) (f : Nat → Bool) : Nat := goSearchLoop f 0 n

/-- Lines 569-583: insert a directory-marker name into the prefix list at
the position found by `sort.Search` over `*prefixes[idx].Prefix >= i.Name`,
unless it is already present there. -/
def insertPfxSearch (pfxs : List Str) (nm : Str) : List Str :=
  let n := pfxs.length
  let idx := goSearch n (fun i => !(strLess ((pfxs.get? i).getD []) nm))
  if idx ≥ n ∨ (pfxs.get? idx).getD [] ≠ nm then
    if idx ≥ n then pfxs ++ [nm]
    else pfxs.take idx ++ [nm] ++ pfxs.drop idx
  else pfxs

/-- Accumulator of the item loop (lines 559-600): the prefix list, the item
list, and the `sortItems` flag. -/
structure ListAccum where
  pfxs : List Str
  items : List BlobItemOutput
  sortItems : Bool
deriving DecidableEq, Repr

/-- One iteration of the item loop (lines 561-600): an item whose
`hdi_isfolder` metadata value is non-empty gets `/` appended to its name
and, under a delimiter, is merged into the prefix list and skipped;
otherwise (also for ordinary items) it is emitted with the marker key
deleted from its metadata. -/
def listStep (delim : Option Str) (acc : ListAccum) (it : AzRawBlobItem) : ListAccum :=
  if (alookup it.metadata azureDirBlobMetadataKey).getD [] ≠ [] then
    match delim with
    | some _ => { acc with pfxs := insertPfxSearch acc.pfxs (it.name ++ [47]) }
    | none =>
        { acc with
          sortItems := true
          items := acc.items ++
            [{ key := it.name ++ [47], etag := it.etag, size := it.size,
               metadata := aerase it.metadata azureDirBlobMetadataKey }] }
  else
    { acc with items := acc.items ++
        [{ key := it.name, etag := it.etag, size := it.size,
           metadata := aerase it.metadata azureDirBlobMetadataKey }] }

/-- Lines 602-615: when the prefix ends in `/`, a `HeadBlob` of the prefix
fills in the `dir/` entry that Azure's folder convention hides; `ENOENT` is
tolerated, other errors abort the listing. -/
def listDirFill (st : Store) (pfx : Str) (acc : ListAccum) : Except GoErr ListAccum :=
  if hasSuffixSlash pfx then
    match headBlob st pfx with
    | .ok dirBlob =>
        .ok { acc with
              sortItems := true
              items := acc.items ++
                [{ key := dirBlob.key ++ [47], etag := dirBlob.etag,
                   size := dirBlob.size, metadata := dirBlob.metadata }] }
    | .error e => if e = .errno .ENOENT then .ok acc else .error e
  else .ok acc

/-- Lines 624-626: an empty backend marker is normalised to nil. -/
def normMarker : Option Str → Option Str
  | some [] => none
  | m => m

/-- Lines 617-633: final re-sort of the items when a directory changed the
ordering, marker normalisation, and output assembly (`IsTruncated` is
`nextMarker != nil`). -/
def finishList (acc : ListAccum) (nextMarker : Option Str) : ListBlobsOutput :=
  let items := if acc.sortItems then sortBy itemLess acc.items else acc.items
  let marker := normMarker nextMarker
  { pfxs := acc.pfxs, items := items,
    nextContinuationToken := marker, isTruncated := marker.isSome }

/-- Lines 507-527: under a delimiter, the initial prefix list comes from
the hierarchy response, re-sorted under the Azurite endpoint when the
response is unsorted; without a delimiter it starts empty. -/
def listInitPfxs (endpoint : String) (delim : Option Str) (ps : List Str) : List Str :=
  match delim with
  | some _ =>
      if endpoint = azuriteEndpoint ∧ ¬(isSortedBy pfxLess ps = true)
      then sortBy pfxLess ps else ps
  | none => []

/-- Lines 531-547: the flat branch's Azurite workaround applies the item
re-sort to the `items` slice, which is still empty at this point of the
source, so the initial item list is empty either way. -/
def listInitItems (endpoint : String) (delim : Option Str) : List BlobItemOutput :=
  match delim with
  | some _ => []
  | none =>
      if endpoint = azuriteEndpoint ∧ ¬(isSortedBy itemLess ([] : List BlobItemOutput) = true)
      then sortBy itemLess [] else []

/-- `ListBlobs` (lines 474-634) given the raw service response `resp` of
the segment call the driver issues (hierarchy listing when a delimiter is
given, flat listing otherwise).  `startAfter` is rejected up front; under
the Azurite endpoint an unsorted prefix list is re-sorted (lines 523-527)
— while the corresponding flat-listing workaround (lines 544-547) operates
on the still-empty `items` slice, exactly as in the source; one lone item
not extending a `/`-suffixed prefix yields an empty result (lines
550-558); then the item loop, the `dir/` fill-in and output assembly. -/
def listBlobs (endpoint : String) (st : Store) (p : ListBlobsInput) (resp : AzListResponse) :
    Except GoErr ListBlobsOutput :=
  if p.startAfter ≠ none then .error (.errno .ENOTSUP)
  else if resp.blobItems.length = 1 ∧
      ((resp.blobItems.get? 0).map (fun it => it.name.length)).getD 0 ≤ p.pfx.length ∧
      hasSuffixSlash p.pfx then
    .ok { pfxs := [], items := [], nextContinuationToken := none, isTruncated := false }
  else
    match listDirFill st p.pfx
        (resp.blobItems.foldl (listStep p.delimiter)
          { pfxs := listInitPfxs endpoint p.delimiter resp.blobPfxs
            items := listInitItems endpoint p.delimiter
            sortItems := false }) with
    | .error e => .error e
    | .ok acc2 => .ok (finishList acc2 resp.nextMarker)

/-- C1 (code-bug evidence): under the Azurite endpoint, a flat listing
(no delimiter) whose service response carries the keys "b", "a" in that
unsorted order and no directory markers is returned in service order —
unsorted.  The Azurite re-sort of the flat branch (source lines 544-547)
operates on the `items` slice, which is still empty at that point, so it
never takes effect. -/
theorem listBlobs_azurite_flat_unsorted :
    listBlobs azuriteEndpoint [] ⟨[], none, none, none, none⟩
      ⟨[], [⟨S "b", [], [], 0⟩, ⟨S "a", [], [], 0⟩], none⟩ =
      .ok ⟨[], [⟨S "b", [], 0, []⟩, ⟨S "a", [], 0, []⟩], none, false⟩ ∧
    isSortedBy itemLess [⟨S "b", [], 0, []⟩, ⟨S "a", [], 0, []⟩] = false :=
  ⟨rfl, by decide⟩

theorem normMarker_ne_empty (m : Option Str) : normMarker m ≠ some [] := by
  match m with
  | none => simp [normMarker]
  | some [] => simp [normMarker]
  | some (b :: t) => simp [normMarker]

theorem finishList_truncation (acc : ListAccum) (m : Option Str) :
    ((finishList acc m).isTruncated = true ↔ (finishList acc m).nextContinuationToken ≠ none) ∧
    (finishList acc m).nextContinuationToken ≠ some [] := by
  refine ⟨?_, normMarker_ne_empty m⟩
  show ((normMarker m).isSome = true ↔ normMarker m ≠ none)
  exact Option.isSome_iff_ne_none

/-- C10: every successful ListBlobs output has IsTruncated true exactly
when NextContinuationToken is non-nil, and the token is never the empty
string. -/
theorem listBlobs_truncation_invariant (endpoint : String) (st : Store)
    (p : ListBlobsInput) (resp : AzListResponse) (out : ListBlobsOutput)
    (h : listBlobs endpoint st p resp = .ok out) :
    (out.isTruncated = true ↔ out.nextContinuationToken ≠ none) ∧
    out.nextContinuationToken ≠ some [] := by
  unfold listBlobs at h
  split at h
  · exact absurd h (by simp)
  · split at h
    · rw [Except.ok.injEq] at h
      subst h
      simp
    · split at h
      · exact absurd h (by simp)
      · rw [Except.ok.injEq] at h
        subst h
        exact finishList_truncation _ _

/-- Witness for C10 at a concrete truncated listing. -/
theorem listBlobs_truncation_invariant_witness :
    ((⟨[], [], some (S "t"), true⟩ : ListBlobsOutput).isTruncated = true ↔
      (⟨[], [], some (S "t"), true⟩ : ListBlobsOutput).nextContinuationToken ≠ none) ∧
    (⟨[], [], some (S "t"), true⟩ : ListBlobsOutput).nextContinuationToken ≠ some [] :=
  listBlobs_truncation_invariant "x" [] ⟨S "q", none, none, none, none⟩
    ⟨[], [], some (S "t")⟩ ⟨[], [], some (S "t"), true⟩ rfl

theorem hasSuffixSlash_append (k : Str) : hasSuffixSlash (k ++ [47]) = true := by
  simp [hasSuffixSlash]

/-- C6: a listing whose prefix equals an existing file key (the response
holds that single blob, which carries no directory marker) returns exactly
that item and no directory entry; listing under the slash-suffixed form of
the key returns the empty result instead of presenting the file as a
directory. -/
theorem listBlobs_file_key (endpoint : String) (st : Store) (k : Str) (meta : Meta)
    (etg : Str) (sz : Nat)
    (hk : hasSuffixSlash k = false)
    (hm : (alookup meta azureDirBlobMetadataKey).getD [] = []) :
    listBlobs endpoint st ⟨k, none, none, none, none⟩ ⟨[], [⟨k, meta, etg, sz⟩], none⟩ =
      .ok ⟨[], [⟨k, etg, sz, aerase meta azureDirBlobMetadataKey⟩], none, false⟩ ∧
    listBlobs endpoint st ⟨k ++ [47], none, none, none, none⟩ ⟨[], [⟨k, meta, etg, sz⟩], none⟩ =
      .ok ⟨[], [], none, false⟩ := by
  constructor
  · unfold listBlobs
    simp only [listInitItems, listInitPfxs, isSortedBy]
    rw [if_neg (by simp), if_neg (by simp [hk])]
    simp only [List.foldl, listStep, hm]
    rw [if_neg (by simp)]
    unfold listDirFill
    rw [if_neg (by simp [hk])]
    simp [finishList, normMarker]
  · unfold listBlobs
    rw [if_neg (by simp)]
    rw [if_pos ⟨by simp, by simp, hasSuffixSlash_append k⟩]

/-- Witness for C6 at the concrete key `"a"`. -/
theorem listBlobs_file_key_witness :
    listBlobs "x" [] ⟨S "a", none, none, none, none⟩ ⟨[], [⟨S "a", [], S "e", 5⟩], none⟩ =
      .ok ⟨[], [⟨S "a", S "e", 5, aerase [] azureDirBlobMetadataKey⟩], none, false⟩ ∧
    listBlobs "x" [] ⟨S "a" ++ [47], none, none, none, none⟩ ⟨[], [⟨S "a", [], S "e", 5⟩], none⟩ =
      .ok ⟨[], [], none, false⟩ :=
  listBlobs_file_key "x" [] (S "a") [] (S "e") 5 (by decide) (by decide)

/-! ## Metadata hygiene (C7) -/

theorem asciiToLower_idem (b : Nat) : asciiToLower (asciiToLower b) = asciiToLower b := by
  unfold asciiToLower
  by_cases h : 65 ≤ b ∧ b ≤ 90
  · rw [if_pos h, if_neg (by omega)]
  · rw [if_neg h, if_neg h]

theorem strToLower_idem (s : Str) : strToLower (strToLower s) = strToLower s := by
  unfold strToLower
  rw [List.map_map]
  exact List.map_congr_left (fun b _ => asciiToLower_idem b)

theorem mem_ainsert {α : Type} (m : List (Str × α)) (k : Str) (v : α) (q : Str × α)
    (h : q ∈ ainsert m k v) : q ∈ m ∨ q = (k, v) := by
  unfold ainsert at h
  rcases List.mem_append.1 h with h1 | h1
  · exact Or.inl (List.mem_of_mem_filter h1)
  · exact Or.inr (List.mem_singleton.1 h1)

theorem nilMetadata_keys_lower (m : Meta) :
    ∀ q ∈ nilMetadata m, strToLower q.1 = q.1 := by
  unfold nilMetadata
  suffices h : ∀ (l : List (Str × Str)) (acc : Meta),
      (∀ q ∈ acc, strToLower q.1 = q.1) →
      ∀ q ∈ List.foldl (fun acc p => ainsert acc (strToLower p.1) p.2) acc l,
        strToLower q.1 = q.1 by
    exact h m [] (by simp)
  intro l
  induction l with
  | nil => intro acc hacc q hq; exact hacc q hq
  | cons p rest ih =>
      intro acc hacc q hq
      refine ih _ ?_ q hq
      intro r hr
      rcases mem_ainsert _ _ _ _ hr with h1 | h1
      · exact hacc r h1
      · rw [h1]
        exact strToLower_idem p.1

theorem headBlobCore_marker_free (st : Store) (key : Str) (out : HeadBlobOutput)
    (h : headBlobCore st key = .ok out) :
    alookup out.metadata azureDirBlobMetadataKey = none := by
  unfold headBlobCore at h
  split at h
  · exact absurd h (by simp)
  · rw [Except.ok.injEq] at h
    subst h
    exact alookup_aerase_self _ _

theorem headBlobAux_marker_free (st : Store) (rkey : List Nat) (out : HeadBlobOutput)
    (h : headBlobAux st rkey = .ok out) :
    alookup out.metadata azureDirBlobMetadataKey = none := by
  induction rkey generalizing out with
  | nil => exact headBlobCore_marker_free _ _ _ h
  | cons b t ih =>
      by_cases hb : b = 47
      · subst hb
        have hrec : headBlobAux st (47 :: t) =
            match headBlobAux st t with
            | .ok dirBlob =>
                if ¬dirBlob.isDirBlob then .error (.errno .ENOENT) else .ok dirBlob
            | .error e => .error e := rfl
        rw [hrec] at h
        rcases hh : headBlobAux st t with e | o
        · rw [hh] at h
          exact absurd h (by simp)
        · rw [hh] at h
          by_cases hd : o.isDirBlob = true
          · simp [hd] at h
            subst h
            exact ih _ hh
          · simp [hd] at h
      · rw [headBlobAux_notSlash st (b :: t) (by simp [hb])] at h
        exact headBlobCore_marker_free _ _ _ h

theorem headBlob_marker_free (st : Store) (key : Str) (out : HeadBlobOutput)
    (h : headBlob st key = .ok out) :
    alookup out.metadata azureDirBlobMetadataKey = none :=
  headBlobAux_marker_free st key.reverse out h

theorem getBlob_marker_free (st : Store) (p : GetBlobInput) (out : GetBlobOutput)
    (h : getBlob st p = .ok out) :
    alookup out.head.metadata azureDirBlobMetadataKey = none := by
  unfold getBlob at h
  split at h
  · exact absurd h (by simp)
  · split at h
    · split at h
      · exact absurd h (by simp)
      · rw [Except.ok.injEq] at h
        subst h
        exact alookup_aerase_self _ _
    · rw [Except.ok.injEq] at h
      subst h
      exact alookup_aerase_self _ _

theorem mem_of_mem_insertBy {α : Type} (less : α → α → Bool) (x a : α) (l : List α)
    (h : a ∈ insertBy less x l) : a = x ∨ a ∈ l := by
  induction l with
  | nil => simpa [insertBy] using h
  | cons b rest ih =>
      unfold insertBy at h
      split at h
      · rcases List.mem_cons.1 h with h1 | h1
        · exact Or.inl h1
        · exact Or.inr h1
      · rcases List.mem_cons.1 h with h1 | h1
        · exact Or.inr (List.mem_cons.2 (Or.inl h1))
        · rcases ih h1 with h2 | h2
          · exact Or.inl h2
          · exact Or.inr (List.mem_cons.2 (Or.inr h2))

theorem mem_of_mem_sortBy {α : Type} (less : α → α → Bool) (a : α) (l : List α)
    (h : a ∈ sortBy less l) : a ∈ l := by
  induction l with
  | nil => simp [sortBy] at h
  | cons b rest ih =>
      unfold sortBy at h
      rcases mem_of_mem_insertBy _ _ _ _ h with h1 | h1
      · exact List.mem_cons.2 (Or.inl h1)
      · exact List.mem_cons.2 (Or.inr (ih h1))

theorem listStep_items_invariant (delim : Option Str) (acc : ListAccum) (it : AzRawBlobItem) :
    ∀ q ∈ (listStep delim acc it).items,
      q ∈ acc.items ∨ alookup q.metadata azureDirBlobMetadataKey = none := by
  intro q hq
  unfold listStep at hq
  split at hq
  · split at hq
    · exact Or.inl hq
    · rcases List.mem_append.1 hq with h1 | h1
      · exact Or.inl h1
      · rw [List.mem_singleton.1 h1]
        exact Or.inr (alookup_aerase_self _ _)
  · rcases List.mem_append.1 hq with h1 | h1
    · exact Or.inl h1
    · rw [List.mem_singleton.1 h1]
      exact Or.inr (alookup_aerase_self _ _)

theorem foldl_listStep_marker_free (delim : Option Str) (l : List AzRawBlobItem)
    (acc : ListAccum)
    (hacc : ∀ q ∈ acc.items, alookup q.metadata azureDirBlobMetadataKey = none) :
    ∀ q ∈ (l.foldl (listStep delim) acc).items,
      alookup q.metadata azureDirBlobMetadataKey = none := by
  induction l generalizing acc with
  | nil => exact hacc
  | cons it rest ih =>
      intro q hq
      refine ih _ ?_ q hq
      intro r hr
      rcases listStep_items_invariant delim acc it r hr with h1 | h1
      · exact hacc r h1
      · exact h1

theorem listDirFill_marker_free (st : Store) (pfx : Str) (acc acc2 : ListAccum)
    (hacc : ∀ q ∈ acc.items, alookup q.metadata azureDirBlobMetadataKey = none)
    (h : listDirFill st pfx acc = .ok acc2) :
    ∀ q ∈ acc2.items, alookup q.metadata azureDirBlobMetadataKey = none := by
  unfold listDirFill at h
  split at h
  · split at h
    · rw [Except.ok.injEq] at h
      subst h
      intro q hq
      rcases List.mem_append.1 hq with h1 | h1
      · exact hacc q h1
      · rw [List.mem_singleton.1 h1]
        next dirBlob heq => exact headBlob_marker_free st pfx dirBlob heq
    · split at h
      · rw [Except.ok.injEq] at h
        subst h
        exact hacc
      · exact absurd h (by simp)
  · rw [Except.ok.injEq] at h
    subst h
    exact hacc

theorem listInitItems_eq_nil (endpoint : String) (delim : Option Str) :
    listInitItems endpoint delim = [] := by
  unfold listInitItems
  match delim with
  | some d => rfl
  | none => simp [isSortedBy]

theorem listBlobs_items_marker_free (endpoint : String) (st : Store)
    (p : ListBlobsInput) (resp : AzListResponse) (out : ListBlobsOutput)
    (h : listBlobs endpoint st p resp = .ok out) :
    ∀ q ∈ out.items, alookup q.metadata azureDirBlobMetadataKey = none := by
  unfold listBlobs at h
  split at h
  · exact absurd h (by simp)
  · split at h
    · rw [Except.ok.injEq] at h
      subst h
      simp
    · split at h
      · exact absurd h (by simp)
      · rw [Except.ok.injEq] at h
        subst h
        next acc2 heq =>
        have hfold := foldl_listStep_marker_free p.delimiter resp.blobItems
          { pfxs := listInitPfxs endpoint p.delimiter resp.blobPfxs
            items := listInitItems endpoint p.delimiter
            sortItems := false }
          (by rw [listInitItems_eq_nil]; simp)
        have hacc2 := listDirFill_marker_free st p.pfx _ acc2 hfold heq
        intro q hq
        unfold finishList at hq
        by_cases hs : acc2.sortItems = true
        · rw [if_pos hs] at hq
          exact hacc2 q (mem_of_mem_sortBy _ _ _ hq)
        · rw [if_neg hs] at hq
          exact hacc2 q hq

/-- C7: the metadata maps returned by HeadBlob, GetBlob and ListBlobs never
contain the `hdi_isfolder` directory-marker key, and every metadata map
sent to Azure through `nilMetadata` has all of its keys lower-cased (each
key is fixed by lower-casing). -/
theorem metadata_hygiene :
    (∀ (st : Store) (key : Str) (out : HeadBlobOutput), headBlob st key = .ok out →
        alookup out.metadata azureDirBlobMetadataKey = none) ∧
    (∀ (st : Store) (p : GetBlobInput) (out : GetBlobOutput), getBlob st p = .ok out →
        alookup out.head.metadata azureDirBlobMetadataKey = none) ∧
    (∀ (endpoint : String) (st : Store) (p : ListBlobsInput) (resp : AzListResponse)
        (out : ListBlobsOutput), listBlobs endpoint st p resp = .ok out →
        ∀ q ∈ out.items, alookup q.metadata azureDirBlobMetadataKey = none) ∧
    (∀ (m : Meta), ∀ q ∈ nilMetadata m, strToLower q.1 = q.1) :=
  ⟨headBlob_marker_free, getBlob_marker_free, listBlobs_items_marker_free,
   nilMetadata_keys_lower⟩

/-- Witness for C7 at a concrete store holding a directory-marker blob
with one extra mixed-case metadata key. -/
theorem metadata_hygiene_witness :
    alookup (HeadBlobOutput.mk (S "a") (S "e") 0 [(S "Foo", S "v")] [] true).metadata
      azureDirBlobMetadataKey = none ∧
    alookup (GetBlobOutput.mk (HeadBlobOutput.mk (S "a") (S "e") 0 [(S "Foo", S "v")] [] false)
      []).head.metadata azureDirBlobMetadataKey = none ∧
    alookup (BlobItemOutput.mk (S "pq") (S "e") 1 [(S "m", S "v")]).metadata
      azureDirBlobMetadataKey = none ∧
    strToLower (S "foo", S "v").1 = (S "foo", S "v").1 :=
  ⟨metadata_hygiene.1 [(S "a", ⟨[(azureDirBlobMetadataKey, S "true"), (S "Foo", S "v")], [], [], S "e"⟩)]
      (S "a") (HeadBlobOutput.mk (S "a") (S "e") 0 [(S "Foo", S "v")] [] true) rfl,
   metadata_hygiene.2.1 [(S "a", ⟨[(azureDirBlobMetadataKey, S "true"), (S "Foo", S "v")], [], [], S "e"⟩)]
      ⟨S "a", 0, 0, none⟩
      (GetBlobOutput.mk (HeadBlobOutput.mk (S "a") (S "e") 0 [(S "Foo", S "v")] [] false) []) rfl,
   metadata_hygiene.2.2.1 "x" [] ⟨S "p", none, none, none, none⟩
      ⟨[], [⟨S "pq", [(S "m", S "v")], S "e", 1⟩], none⟩
      ⟨[], [⟨S "pq", S "e", 1, [(S "m", S "v")]⟩], none, false⟩ rfl
      (BlobItemOutput.mk (S "pq") (S "e") 1 [(S "m", S "v")]) (by decide),
   metadata_hygiene.2.2.2 [(S "Foo", S "v")] (S "foo", S "v") (by decide)⟩

/-! ## DeleteBlobs (C9)

The Go `DeleteBlobs` fans per-key `DeleteBlob` calls out to goroutines
under the `SmallActionsGate` semaphore and waits for all of them in a
deferred `wg.Wait()`.  The fan-out is modelled sequentially: each per-key
call yields an outcome (`none` on success, `some e` with the error
`DeleteBlob` returned otherwise); the loop re-maps the error through
`mapAZBError` (lines 676-681), tolerates `ENOENT`, records the first other
error and stops spawning (lines 684-686). -/

/-- The error-aggregation loop of `DeleteBlobs` (lines 665-687) over the
per-key outcomes. -/
def deleteBlobsLoop : List (Option GoErr) → Option GoErr
  | [] => none
  | none :: rest => deleteBlobsLoop rest
  | some e :: rest =>
      if mapAZBErrCore e = .errno .ENOENT then deleteBlobsLoop rest
      else some (mapAZBErrCore e)

/-- `DeleteBlobs` (lines 654-690): nil output with the recorded error, or
an empty output on success. -/
def deleteBlobs (outcomes : List (Option GoErr)) : Except GoErr Unit :=
  match deleteBlobsLoop outcomes with
  | none => .ok ()
  | some e => .error e

theorem deleteBlobsLoop_none_iff (outcomes : List (Option GoErr)) :
    deleteBlobsLoop outcomes = none ↔
      ∀ o ∈ outcomes, o = none ∨ ∃ e, o = some e ∧ mapAZBErrCore e = .errno .ENOENT := by
  induction outcomes with
  | nil => simp [deleteBlobsLoop]
  | cons o rest ih =>
      match o with
      | none => simpa [deleteBlobsLoop] using ih
      | some e =>
          by_cases he : mapAZBErrCore e = .errno .ENOENT
          · simp only [deleteBlobsLoop, if_pos he]
            rw [ih]
            constructor
            · intro h q hq
              rcases List.mem_cons.1 hq with h1 | h1
              · exact Or.inr ⟨e, h1, he⟩
              · exact h q h1
            · intro h q hq
              exact h q (List.mem_cons.2 (Or.inr hq))
          · simp only [deleteBlobsLoop, if_neg he]
            constructor
            · intro h
              exact absurd h (by simp)
            · intro h
              rcases h (some e) (List.mem_cons.2 (Or.inl rfl)) with h1 | ⟨e', he', hmap⟩
              · exact absurd h1 (by simp)
              · rw [Option.some.injEq] at he'
                subst he'
                exact absurd hmap he

theorem deleteBlobsLoop_some (outcomes : List (Option GoErr)) (e : GoErr)
    (h : deleteBlobsLoop outcomes = some e) :
    e ≠ .errno .ENOENT ∧ ∃ e', some e' ∈ outcomes ∧ mapAZBErrCore e' = e := by
  induction outcomes with
  | nil => exact absurd h (by simp [deleteBlobsLoop])
  | cons o rest ih =>
      match o with
      | none =>
          rcases ih (by simpa [deleteBlobsLoop] using h) with ⟨h1, e', hmem, hmap⟩
          exact ⟨h1, e', List.mem_cons.2 (Or.inr hmem), hmap⟩
      | some e0 =>
          by_cases he : mapAZBErrCore e0 = .errno .ENOENT
          · rw [show deleteBlobsLoop (some e0 :: rest) = deleteBlobsLoop rest by
              simp [deleteBlobsLoop, he]] at h
            rcases ih h with ⟨h1, e', hmem, hmap⟩
            exact ⟨h1, e', List.mem_cons.2 (Or.inr hmem), hmap⟩
          · rw [show deleteBlobsLoop (some e0 :: rest) = some (mapAZBErrCore e0) by
              simp [deleteBlobsLoop, he]] at h
            rw [Option.some.injEq] at h
            subst h
            exact ⟨he, e0, List.mem_cons.2 (Or.inl rfl), rfl⟩

/-- C9: DeleteBlobs succeeds exactly when every per-key deletion either
succeeds or fails with (a mapping to) NotFound; otherwise it returns an
error (never ENOENT itself) that is the mapped error of one of the failed
deletions, with a nil output. -/
theorem deleteBlobs_tolerates_missing (outcomes : List (Option GoErr)) :
    (deleteBlobs outcomes = .ok () ↔
      ∀ o ∈ outcomes, o = none ∨ ∃ e, o = some e ∧ mapAZBErrCore e = .errno .ENOENT) ∧
    (∀ e, deleteBlobs outcomes = .error e →
      e ≠ .errno .ENOENT ∧ ∃ e', some e' ∈ outcomes ∧ mapAZBErrCore e' = e) := by
  constructor
  · rw [← deleteBlobsLoop_none_iff]
    unfold deleteBlobs
    constructor
    · intro h
      rcases hl : deleteBlobsLoop outcomes with _ | e
      · rfl
      · rw [hl] at h
        exact absurd h (by simp)
    · intro h
      rw [h]
  · intro e h
    unfold deleteBlobs at h
    rcases hl : deleteBlobsLoop outcomes with _ | e0
    · rw [hl] at h
      exact absurd h (by simp)
    · rw [hl] at h
      rw [Except.error.injEq] at h
      subst h
      exact deleteBlobsLoop_some outcomes e0 hl

/-- Witness for C9: three outcomes — a BlobNotFound storage error
(tolerated), a success, and an EACCES failure that aborts the batch. -/
theorem deleteBlobs_tolerates_missing_witness :
    (GoErr.errno .EACCES ≠ GoErr.errno .ENOENT) ∧
    ∃ e', some e' ∈ [some (GoErr.storage "BlobNotFound" 404), none,
        some (GoErr.errno .EACCES)] ∧ mapAZBErrCore e' = .errno .EACCES :=
  (deleteBlobs_tolerates_missing
    [some (GoErr.storage "BlobNotFound" 404), none, some (GoErr.errno .EACCES)]).2
    (.errno .EACCES) rfl

/-! ## CopyBlob pending-copy polling (C3)

`CopyBlob` (lines 696-732) first normalises a `src/`→`dst/` pair by
stripping the slashes, then issues `StartCopyFromURL`.  The polling that
follows a `Pending` initial status is modelled over an explicit trace of
`GetProperties` results; a trace that runs out while the copy is still
pending with the same CopyID corresponds to a loop that is still polling
(`none`). -/

/-- `azblob.CopyStatusPending` ("pending"). -/
def azCopyStatusPending : String := "pending"

/-- The fields of the `StartCopyFromURL` / `GetProperties` responses the
polling loop reads. -/
structure AzCopyResp where
  copyStatus : String
  copyID : String
deriving DecidableEq, Repr

/-- One `GetProperties` poll: a response or an error. -/
inductive PollResult where
  | ok (copyStatus : String) (copyID : String)
  | err (e : GoErr)
deriving DecidableEq, Repr

/-- `time.Sleep(50 * time.Millisecond)` before the first poll (line 717). -/
def copyBlobPendingSleepMs : Nat := 50

/-- The polling loop (lines 719-728): each successful poll breaks (with
overall success) when the copy status is no longer Pending or the CopyID
differs from the one `StartCopyFromURL` returned; a failing poll ends
`CopyBlob` with the error mapped by `mapAZBError`. -/
def copyPollLoop (origID : String) : List PollResult → Option (Except GoErr Unit)
  | [] => none
  | .err e :: _ => some (.error (mapAZBErrCore e))
  | .ok stc id :: rest =>
      if stc ≠ azCopyStatusPending ∨ id ≠ origID then some (.ok ())
      else copyPollLoop origID rest

/-- `CopyBlob` after `StartCopyFromURL` (lines 710-731): a failed start is
mapped by `mapAZBError`; a Pending start sleeps `copyBlobPendingSleepMs`
then polls; any other status succeeds immediately. -/
def copyBlob (initResp : Except GoErr AzCopyResp) (polls : List PollResult) :
    Option (Except GoErr Unit) :=
  match initResp with
  | .error e => some (.error (mapAZBErrCore e))
  | .ok r =>
      if r.copyStatus = azCopyStatusPending then copyPollLoop r.copyID polls
      else some (.ok ())

theorem copyPollLoop_ok_iff (origID : String) (polls : List PollResult) :
    copyPollLoop origID polls = some (.ok ()) ↔
      ∃ pre stc id post, polls = pre ++ .ok stc id :: post ∧
        (∀ q ∈ pre, q = .ok azCopyStatusPending origID) ∧
        (stc ≠ azCopyStatusPending ∨ id ≠ origID) := by
  induction polls with
  | nil =>
      simp only [copyPollLoop]
      constructor
      · intro h
        exact absurd h (by simp)
      · rintro ⟨pre, stc, id, post, habs, -, -⟩
        exact absurd habs (by simp)
  | cons p rest ih =>
      match p with
      | .err e =>
          simp only [copyPollLoop]
          constructor
          · intro h
            rw [Option.some.injEq] at h
            exact absurd h (by simp)
          · rintro ⟨pre, stc, id, post, heq, hpre, -⟩
            match pre with
            | [] => simp at heq
            | q :: pre' =>
                have hq : q = PollResult.ok azCopyStatusPending origID :=
                  hpre q (List.mem_cons.2 (Or.inl rfl))
                rw [List.cons_append, List.cons.injEq] at heq
                rw [hq] at heq
                exact absurd heq.1 (by simp)
      | .ok stc0 id0 =>
          by_cases hdec : stc0 ≠ azCopyStatusPending ∨ id0 ≠ origID
          · simp only [copyPollLoop, if_pos hdec]
            constructor
            · intro _
              exact ⟨[], stc0, id0, rest, rfl, by simp, hdec⟩
            · intro _
              trivial
          · simp only [copyPollLoop, if_neg hdec]
            push_neg at hdec
            obtain ⟨hstc, hid⟩ := hdec
            rw [ih]
            constructor
            · rintro ⟨pre, stc, id, post, heq, hpre, hd⟩
              refine ⟨.ok stc0 id0 :: pre, stc, id, post, by rw [heq, List.cons_append], ?_, hd⟩
              intro q hq
              rcases List.mem_cons.1 hq with h1 | h1
              · rw [h1, hstc, hid]
              · exact hpre q h1
            · rintro ⟨pre, stc, id, post, heq, hpre, hd⟩
              match pre with
              | [] =>
                  rw [List.nil_append, List.cons.injEq, PollResult.ok.injEq] at heq
                  obtain ⟨⟨h1, h2⟩, -⟩ := heq
                  rcases hd with hd | hd
                  · rw [← h1] at hd
                    exact absurd hstc hd
                  · rw [← h2] at hd
                    exact absurd hid hd
              | q :: pre' =>
                  rw [List.cons_append, List.cons.injEq] at heq
                  refine ⟨pre', stc, id, post, heq.2, ?_, hd⟩
                  intro r hr
                  exact hpre r (List.mem_cons.2 (Or.inr hr))

theorem copyPollLoop_err (origID : String) (pre : List PollResult) (e : GoErr)
    (post : List PollResult)
    (hpre : ∀ q ∈ pre, q = .ok azCopyStatusPending origID) :
    copyPollLoop origID (pre ++ .err e :: post) = some (.error (mapAZBErrCore e)) := by
  induction pre with
  | nil => rfl
  | cons q pre' ih =>
      have hq : q = PollResult.ok azCopyStatusPending origID :=
        hpre q (List.mem_cons.2 (Or.inl rfl))
      subst hq
      show copyPollLoop origID (.ok azCopyStatusPending origID :: (pre' ++ .err e :: post)) = _
      rw [show copyPollLoop origID (.ok azCopyStatusPending origID :: (pre' ++ .err e :: post))
            = copyPollLoop origID (pre' ++ .err e :: post) by
          simp [copyPollLoop]]
      exact ih (fun r hr => hpre r (List.mem_cons.2 (Or.inr hr)))

/-- C3: when the initial StartCopyFromURL response is Pending, CopyBlob
sleeps 50 ms and polls GetProperties in a loop; it returns success exactly
when some poll — all earlier polls having observed Pending with the
original CopyID — observes a status other than Pending or a CopyID
different from the one this call started; a failing poll (after such
earlier polls) makes CopyBlob return that error mapped by mapAZBError. -/
theorem copyBlob_pending_poll (r : AzCopyResp) (polls : List PollResult)
    (hp : r.copyStatus = azCopyStatusPending) :
    copyBlobPendingSleepMs = 50 ∧
    (copyBlob (.ok r) polls = some (.ok ()) ↔
      ∃ pre stc id post, polls = pre ++ .ok stc id :: post ∧
        (∀ q ∈ pre, q = .ok azCopyStatusPending r.copyID) ∧
        (stc ≠ azCopyStatusPending ∨ id ≠ r.copyID)) ∧
    (∀ (pre : List PollResult) (e : GoErr) (post : List PollResult),
      polls = pre ++ .err e :: post →
      (∀ q ∈ pre, q = .ok azCopyStatusPending r.copyID) →
      copyBlob (.ok r) polls = some (.error (mapAZBErrCore e))) := by
  have hcb : copyBlob (.ok r) polls = copyPollLoop r.copyID polls := by
    show (if r.copyStatus = azCopyStatusPending then copyPollLoop r.copyID polls
          else some (.ok ())) = copyPollLoop r.copyID polls
    rw [if_pos hp]
  refine ⟨rfl, ?_, ?_⟩
  · rw [hcb]
    exact copyPollLoop_ok_iff r.copyID polls
  · intro pre e post heq hpre
    rw [hcb, heq]
    exact copyPollLoop_err r.copyID pre e post hpre

/-- Witness for C3: a Pending start, one pending poll, then a poll with
status "success" ends the copy successfully. -/
theorem copyBlob_pending_poll_witness :
    copyBlobPendingSleepMs = 50 ∧
    (copyBlob (.ok ⟨azCopyStatusPending, "id1"⟩)
        [.ok azCopyStatusPending "id1", .ok "success" "id1"] = some (.ok ()) ↔
      ∃ pre stc id post,
        [PollResult.ok azCopyStatusPending "id1", PollResult.ok "success" "id1"] =
          pre ++ .ok stc id :: post ∧
        (∀ q ∈ pre, q = .ok azCopyStatusPending "id1") ∧
        (stc ≠ azCopyStatusPending ∨ id ≠ "id1")) ∧
    (∀ (pre : List PollResult) (e : GoErr) (post : List PollResult),
      [PollResult.ok azCopyStatusPending "id1", PollResult.ok "success" "id1"] =
        pre ++ .err e :: post →
      (∀ q ∈ pre, q = .ok azCopyStatusPending "id1") →
      copyBlob (.ok ⟨azCopyStatusPending, "id1"⟩)
        [.ok azCopyStatusPending "id1", .ok "success" "id1"] =
          some (.error (mapAZBErrCore e))) :=
  copyBlob_pending_poll ⟨azCopyStatusPending, "id1"⟩
    [.ok azCopyStatusPending "id1", .ok "success" "id1"] rfl

/-! ## Multipart uploads (C5) -/

/-- The standard base64 alphabet as byte values. -/
def b64Table : List Nat :=
  S "ABCDEFGHIJKLMNOPQRSTUVWXYZabcdefghijklmnopqrstuvwxyz0123456789+/"

/-- Alphabet byte of a sextet. -/
def b64Char (n : Nat) : Nat := (b64Table.get? n).getD 65

/-- Go `base64.StdEncoding.EncodeToString` over byte lists: each 3-byte
group becomes 4 alphabet bytes; a trailing 1- or 2-byte group is padded
with `=` (61). -/
def b64Encode : List Nat → List Nat
  | [] => []
  | [a] => [b64Char (a / 4), b64Char (a % 4 * 16), 61, 61]
  | [a, b] => [b64Char (a / 4), b64Char (a % 4 * 16 + b / 16), b64Char (b % 16 * 4), 61]
  | a :: b :: c :: rest =>
      b64Char (a / 4) :: b64Char (a % 4 * 16 + b / 16) :: b64Char (b % 16 * 4 + c / 64) ::
        b64Char (c % 64) :: b64Encode rest

/-- Inverse alphabet mapping (proof tool, not part of the driver). -/
def b64Dec (c : Nat) : Nat :=
  if 65 ≤ c ∧ c ≤ 90 then c - 65
  else if 97 ≤ c ∧ c ≤ 122 then c - 71
  else if 48 ≤ c ∧ c ≤ 57 then c + 4
  else if c = 43 then 62
  else if c = 47 then 63
  else 0

/-- Decoder for well-formed encoder output (proof tool). -/
def b64Decode : List Nat → List Nat
  | x :: y :: z :: w :: rest =>
      if z = 61 ∧ w = 61 ∧ rest = [] then [b64Dec x * 4 + b64Dec y / 16]
      else if w = 61 ∧ rest = [] then
        [b64Dec x * 4 + b64Dec y / 16, b64Dec y % 16 * 16 + b64Dec z / 4]
      else
        (b64Dec x * 4 + b64Dec y / 16) :: (b64Dec y % 16 * 16 + b64Dec z / 4) ::
          (b64Dec z % 4 * 64 + b64Dec w) :: b64Decode rest
  | _ => []

theorem b64Char_ne_61 (n : Nat) : b64Char n ≠ 61 := by
  unfold b64Char
  cases h : b64Table.get? n with
  | none => simp
  | some v =>
      have hv : v ∈ b64Table := List.get?_mem h
      have hall : ∀ x ∈ b64Table, x ≠ 61 := by decide
      simpa using hall v hv

theorem b64Dec_b64Char : ∀ n < 64, b64Dec (b64Char n) = n := by decide

theorem b64_roundtrip_aux : ∀ (n : Nat) (l : List Nat), l.length ≤ n → (∀ x ∈ l, x < 256) →
    b64Decode (b64Encode l) = l := by
  intro n
  induction n with
  | zero =>
      intro l hlen _
      match l with
      | [] => rfl
  | succ n ih =>
      intro l hlen hl
      match l with
      | [] => rfl
      | [a] =>
          have ha : a < 256 := hl a (by simp)
          show b64Decode [b64Char (a / 4), b64Char (a % 4 * 16), 61, 61] = [a]
          simp only [b64Decode]
          rw [if_pos (by simp)]
          rw [b64Dec_b64Char (a / 4) (by omega), b64Dec_b64Char (a % 4 * 16) (by omega)]
          congr 1
          omega
      | [a, b] =>
          have ha : a < 256 := hl a (by simp)
          have hb : b < 256 := hl b (by simp)
          show b64Decode [b64Char (a / 4), b64Char (a % 4 * 16 + b / 16),
            b64Char (b % 16 * 4), 61] = [a, b]
          simp only [b64Decode]
          rw [if_neg (by simp [b64Char_ne_61])]
          rw [if_pos (by simp)]
          rw [b64Dec_b64Char (a / 4) (by omega),
            b64Dec_b64Char (a % 4 * 16 + b / 16) (by omega),
            b64Dec_b64Char (b % 16 * 4) (by omega)]
          congr 1
          · omega
          · congr 1
            omega
      | a :: b :: c :: rest =>
          have ha : a < 256 := hl a (by simp)
          have hb : b < 256 := hl b (by simp)
          have hc : c < 256 := hl c (by simp)
          have hrest : ∀ x ∈ rest, x < 256 := fun x hx => hl x (by simp [hx])
          have hlen' : rest.length ≤ n := by
            simp only [List.length_cons] at hlen
            omega
          show b64Decode (b64Char (a / 4) :: b64Char (a % 4 * 16 + b / 16) ::
              b64Char (b % 16 * 4 + c / 64) :: b64Char (c % 64) :: b64Encode rest) =
            a :: b :: c :: rest
          simp only [b64Decode]
          rw [if_neg (by simp [b64Char_ne_61])]
          rw [if_neg (by simp [b64Char_ne_61])]
          rw [ih rest hlen' hrest]
          rw [b64Dec_b64Char (a / 4) (by omega),
            b64Dec_b64Char (a % 4 * 16 + b / 16) (by omega),
            b64Dec_b64Char (b % 16 * 4 + c / 64) (by omega),
            b64Dec_b64Char (c % 64) (by omega)]
          congr 1
          · omega
          · congr 1
            · omega
            · congr 1
              omega

theorem b64Encode_inj (l1 l2 : List Nat) (h1 : ∀ x ∈ l1, x < 256) (h2 : ∀ x ∈ l2, x < 256)
    (he : b64Encode l1 = b64Encode l2) : l1 = l2 := by
  have r1 := b64_roundtrip_aux l1.length l1 (le_refl _) h1
  have r2 := b64_roundtrip_aux l2.length l2 (le_refl _) h2
  rw [← r1, ← r2, he]

/-- The five zero-padded decimal digit bytes of `fmt.Sprintf("%05d", n)`
for `n < 100000` (48 is `0`). -/
def pad5 (n : Nat) : List Nat :=
  [48 + n / 10000 % 10, 48 + n / 1000 % 10, 48 + n / 100 % 10, 48 + n / 10 % 10, 48 + n % 10]

/-- The digit bytes `%05d` produces: five zero-padded digits below 100000
(the driver stays below 50000 parts — line 822: "we can have up to 50K
parts, so %05d should be sufficient"), the plain decimal expansion above. -/
def fmtD5 (n : Nat) : List Nat := if n < 100000 then pad5 n else S (toString n)

theorem pad5_inj (m n : Nat) (hm : m < 100000) (hn : n < 100000) (h : pad5 m = pad5 n) :
    m = n := by
  simp only [pad5, List.cons.injEq, and_true] at h
  omega

/-- `MultipartBlobCommitInput` as `MultipartBlobBegin` creates it and
`MultipartBlobCommit` consumes it; the upload id `uuid.New().String() +
"::%05d"` is represented by its UUID part. -/
structure MultipartCommitInput where
  key : Str
  metadata : Meta
  uploadIdUuid : Str
  parts : List (Option Str)
  numParts : Nat
deriving DecidableEq, Repr

/-- `MultipartBlobBegin` (lines 821-832): fresh upload id, 50000 part
slots ("at most 50K parts"). -/
def multipartBlobBegin (key : Str) (meta : Meta) (uuid : Str) : MultipartCommitInput :=
  { key := key, metadata := meta, uploadIdUuid := uuid
    parts := List.replicate 50000 none, numParts := 0 }

/-- `blockId := fmt.Sprintf(*param.Commit.UploadId, param.PartNumber)`
(lines 841, 862): the upload id is `uuid ++ "::%05d"`, and a UUID string
(hex digits and dashes) contains no `%`, so the formatted block id is the
UUID, `"::"`, then the zero-padded decimal part number. -/
def blockIdFor (uuid : Str) (n : Nat) : Str := uuid ++ S "::" ++ fmtD5 n

/-- The base64 block id that `MultipartBlobAdd` and `MultipartBlobCopy`
stage and return as `PartId` (lines 842-852, 863-895). -/
def multipartPartId (uuid : Str) (n : Nat) : Str := b64Encode (blockIdFor uuid n)

/-- The dereference loop of `MultipartBlobCommit` (lines 910-914):
`parts[i] = *param.Parts[i]` for `i` in `[0, NumParts)`; a nil entry would
be a Go nil-pointer dereference, modelled as `none`. -/
def commitDeref (parts : List (Option Str)) : Nat → Nat → Option (List Str)
  | _, 0 => some []
  | i, k + 1 =>
      match (parts.get? i).bind id with
      | none => none
      | some s => (commitDeref parts (i + 1) k).map (s :: ·)

/-- The block list `MultipartBlobCommit` commits (lines 903-927). -/
def committedBlockList (c : MultipartCommitInput) : Option (List Str) :=
  commitDeref c.parts 0 c.numParts

theorem commitDeref_spec (parts : List (Option Str)) :
    ∀ (k i : Nat) (ps : List Str), commitDeref parts i k = some ps →
      ps.length = k ∧ ∀ j, j < k → ps.get? j = (parts.get? (i + j)).bind id := by
  intro k
  induction k with
  | zero =>
      intro i ps h
      simp only [commitDeref, Option.some.injEq] at h
      subst h
      simp
  | succ k ih =>
      intro i ps h
      simp only [commitDeref] at h
      rcases hd : (parts.get? i).bind id with _ | s
      · rw [hd] at h
        exact absurd h (by simp)
      · rw [hd] at h
        rcases hr : commitDeref parts (i + 1) k with _ | ps'
        · rw [hr] at h
          exact absurd h (by simp)
        · rw [hr] at h
          have h2 : some (s :: ps') = some ps := h
          rw [Option.some.injEq] at h2
          subst h2
          obtain ⟨hlen, hget⟩ := ih (i + 1) ps' hr
          refine ⟨by simp [hlen], ?_⟩
          intro j hj
          match j with
          | 0 => simpa using hd.symm
          | j + 1 =>
              have := hget j (by omega)
              simpa [Nat.add_assoc, Nat.add_comm 1 j] using this

theorem blockIdFor_bytes (uuid : Str) (n : Nat) (hu : ∀ x ∈ uuid, x < 256)
    (hn : n < 100000) : ∀ x ∈ blockIdFor uuid n, x < 256 := by
  intro x hx
  unfold blockIdFor at hx
  rw [List.append_assoc] at hx
  rcases List.mem_append.1 hx with h1 | h1
  · exact hu x h1
  · rcases List.mem_append.1 h1 with h2 | h2
    · rw [show S "::" = [58, 58] from rfl] at h2
      simp at h2
      omega
    · rw [show fmtD5 n = pad5 n from if_pos hn] at h2
      simp only [pad5, List.mem_cons, List.not_mem_nil, or_false] at h2
      rcases h2 with h | h | h | h | h <;> omega

/-- C5: distinct part numbers yield distinct base64 PartIds for the same
upload id, and MultipartBlobCommit commits exactly the first NumParts part
ids in ascending part-number order (entry `j` of the committed block list
is the part id stored for part number `j`), so no two committed parts
share a number. -/
theorem multipart_part_ids :
    (∀ (uuid : Str) (m n : Nat), (∀ x ∈ uuid, x < 256) → m < 100000 → n < 100000 →
      m ≠ n → multipartPartId uuid m ≠ multipartPartId uuid n) ∧
    (∀ (c : MultipartCommitInput) (ps : List Str), committedBlockList c = some ps →
      ps.length = c.numParts ∧ ∀ j, j < c.numParts → ps.get? j = (c.parts.get? j).bind id) := by
  constructor
  · intro uuid m n hu hm hn hmn he
    apply hmn
    have hb := b64Encode_inj _ _ (blockIdFor_bytes uuid m hu hm)
      (blockIdFor_bytes uuid n hu hn) he
    unfold blockIdFor at hb
    rw [List.append_assoc, List.append_assoc] at hb
    have hb2 := List.append_cancel_left hb
    have hb3 := List.append_cancel_left hb2
    rw [show fmtD5 m = pad5 m from if_pos hm, show fmtD5 n = pad5 n from if_pos hn] at hb3
    exact pad5_inj m n hm hn hb3
  · intro c ps h
    have hspec := commitDeref_spec c.parts c.numParts 0 ps h
    simpa using hspec

/-- Witness for C5 at the UUID string "u", part numbers 1 and 2, and a
two-part commit input. -/
theorem multipart_part_ids_witness :
    multipartPartId (S "u") 1 ≠ multipartPartId (S "u") 2 ∧
    ([S "p0", S "p1"].length = (MultipartCommitInput.mk (S "k") [] (S "u")
        [some (S "p0"), some (S "p1")] 2).numParts) ∧
    [S "p0", S "p1"].get? 0 =
      (((MultipartCommitInput.mk (S "k") [] (S "u")
        [some (S "p0"), some (S "p1")] 2).parts.get? 0).bind id) :=
  ⟨multipart_part_ids.1 (S "u") 1 2 (by decide) (by decide) (by decide) (by decide),
   (multipart_part_ids.2 (MultipartCommitInput.mk (S "k") [] (S "u")
     [some (S "p0"), some (S "p1")] 2) [S "p0", S "p1"] rfl).1,
   (multipart_part_ids.2 (MultipartCommitInput.mk (S "k") [] (S "u")
     [some (S "p0"), some (S "p1")] 2) [S "p0", S "p1"] rfl).2 0 (by decide)⟩
